import Mathlib

/-!
Verification development for the singleton event-node materializer of
`Engine/Source/Editor/BlueprintGraph/Private/BlueprintEventNodeSpawner.cpp`.

The shallow embedding models the parent graph (`UEdGraph`) together with the
owning blueprint's function graphs; nodes (`UEdGraphNode` / `UK2Node_Event` /
`UK2Node_FunctionEntry`) are records carrying the fields the spawner reads or
writes, and pins (`UEdGraphPin`) live in a persistent table (in C++ the pin
objects stay alive while links are broken and nodes are removed from the
graph's node array).  Engine primitives that are not part of the provided
source (pin-link breaking, node removal, the blueprint-wide event lookups)
are modelled from the specification's wording, as noted on each definition.
-/

set_option autoImplicit false

namespace BlueprintEvent

/-- A `UFunction` as far as the spawner reads it: its owning class (an opaque
class id) and its name (`GetFName`).  The reflection step
`GetOwnerClass()->GetAuthoritativeClass()` is modelled by an explicit map
`auth : Nat → Nat` over class ids, passed to the operations that use it. -/
structure Func where
  ownerClass : Nat
  name : String
deriving DecidableEq, Repr

/-- A graph node with the fields `UBlueprintEventNodeSpawner` reads or writes:
the ghost flag (`IsAutomaticallyPlacedGhostNode`), the node's pin ids
(`UEdGraphNode::Pins`), whether the node is a custom-event node
(`UK2Node_CustomEvent`), `UK2Node_Event::CustomFunctionName`,
`UK2Node_Event::bOverrideFunction`, the `EventReference` member parent class
and member name, and whether the node is a `UK2Node_FunctionEntry`. -/
structure Node where
  nid : Nat
  ghost : Bool
  pins : List Nat
  isCustomEventNode : Bool
  customFunctionName : Option String
  bOverrideFunction : Bool
  eventRefClass : Nat
  eventRefName : String
  isFunctionEntry : Bool
deriving DecidableEq, Repr

/-- A `UEdGraphPin`: its id, owning node (`GetOwningNode`) and the pin ids it
is linked to (`LinkedTo`). -/
structure Pin where
  pid : Nat
  owner : Nat
  linkedTo : List Nat
deriving DecidableEq, Repr

/-- A function graph of the blueprint (`UEdGraph` in
`UBlueprint::FunctionGraphs`): its name (`GetFName`) and its nodes. -/
structure FuncGraph where
  name : String
  nodes : List Node
deriving DecidableEq, Repr

/-- The parent graph together with the blueprint data the spawner reads
(`FBlueprintEditorUtils::FindBlueprintForGraphChecked` is collapsed: the
graph record carries its blueprint's `FunctionGraphs`).

`nodes` is the table of live node objects (C++ objects stay alive after
`RemoveNode`), `present` the ids currently in the graph's node array,
`pins` the pin table, `nextId` the id generator for spawned nodes, and
`isTemplateOuter` models `FBlueprintNodeTemplateCache::IsTemplateOuter`. -/
structure Graph where
  nodes : List Node
  present : List Nat
  pins : List Pin
  nextId : Nat
  isTemplateOuter : Bool
  functionGraphs : List (Option FuncGraph)
deriving DecidableEq, Repr

/-- Look a node object up by id in the object table (a non-null
`UEdGraphNode*`). -/
def lookupNode (σ : Graph) (n : Nat) : Option Node :=
  σ.nodes.find? (fun nd => decide (nd.nid = n))

/-- Look a pin object up by id. -/
def lookupPinL (ps : List Pin) (p : Nat) : Option Pin :=
  ps.find? (fun pin => decide (pin.pid = p))

/-- `LinkedTo` of a pin, read from a pin table. -/
def linkedToL (ps : List Pin) (p : Nat) : List Nat :=
  ((lookupPinL ps p).map Pin.linkedTo).getD []

/-- `LinkedTo` of a pin in a graph. -/
def linkedTo (σ : Graph) (p : Nat) : List Nat :=
  linkedToL σ.pins p

/-- `GetOwningNode` of a pin. -/
def pinOwner (σ : Graph) (q : Nat) : Nat :=
  (((lookupPinL σ.pins q).map Pin.owner).getD 0)

/-- Per-pin effect of breaking the link between pins `a` and `b`: pin `a`
loses its entries for `b`, pin `b` loses its entries for `a`, all other pins
are untouched. -/
def breakLinkPin (a b : Nat) (pin : Pin) : Pin :=
  if pin.pid = a then
    { pin with linkedTo := pin.linkedTo.filter (fun x => decide (x ≠ b)) }
  else if pin.pid = b then
    { pin with linkedTo := pin.linkedTo.filter (fun x => decide (x ≠ a)) }
  else pin

/-- Modelled from the spec: `UEdGraphPin::BreakLinkTo` is not in the provided
source; per the spec the cascade must "sever the link on both ends", so
breaking the link between pins `a` and `b` removes each from the other's
`LinkedTo` list. -/
def breakLinkPins (ps : List Pin) (a b : Nat) : List Pin :=
  ps.map (breakLinkPin a b)

/-- Graph-level `BreakLinkTo`: only the pin table changes. -/
def breakLink (σ : Graph) (a b : Nat) : Graph :=
  { σ with pins := breakLinkPins σ.pins a b }

/-- Modelled from the spec: `UEdGraphPin::BreakAllPinLinks` (called through
`UEdGraphNode::BreakAllNodeLinks`, not in the provided source) severs every
link of the pin on both ends (it iterates a copy of `LinkedTo`). -/
def breakPinAllPins (ps : List Pin) (p : Nat) : List Pin :=
  (linkedToL ps p).foldl (fun ps' q => breakLinkPins ps' q p) ps

/-- Modelled from the spec: `UEdGraphNode::BreakAllNodeLinks` (not in the
provided source) severs every link of every pin of the node, on both ends
("disconnect ... the original"). -/
def breakAllNodeLinks (σ : Graph) (n : Nat) : Graph :=
  { σ with pins :=
      match lookupNode σ n with
      | some nd => nd.pins.foldl breakPinAllPins σ.pins
      | none => σ.pins }

/-- Modelled from the spec: `UEdGraph::RemoveNode` (not in the provided
source) removes the node from the graph's node array ("delete the
original"); the node object itself stays alive, so the object table keeps
its record. -/
def removeNode (σ : Graph) (n : Nat) : Graph :=
  { σ with present := σ.present.filter (fun x => decide (x ≠ n)) }

/-- Total number of link entries in a pin table: the termination measure of
the ghost cascade. -/
def totalLinksL : List Pin → Nat
  | [] => 0
  | pin :: ps => pin.linkedTo.length + totalLinksL ps

/-- Total number of link entries in a graph. -/
def totalLinks (σ : Graph) : Nat :=
  totalLinksL σ.pins

/-- Inner loop of `RemoveGhostNodes` (cpp lines 57-62): iterate a snapshot of
a pin's `LinkedTo`; for each far pin, break the link back on both ends and
recurse (through `rec`) into the far pin's owning node. -/
def linkedFold (rec : Graph → Nat → Option Graph) (p : Nat) (σ : Graph) :
    List Nat → Option Graph
  | [] => some σ
  | q :: qs =>
    let σ₁ := breakLink σ q p
    match rec σ₁ (pinOwner σ₁ q) with
    | some σ₂ => linkedFold rec p σ₂ qs
    | none => none

/-- Outer loop of `RemoveGhostNodes` (cpp lines 54-63): iterate the node's
pins, snapshotting each pin's `LinkedTo` when it is reached. -/
def pinsFold (rec : Graph → Nat → Option Graph) (σ : Graph) :
    List Nat → Option Graph
  | [] => some σ
  | p :: ps =>
    match linkedFold rec p σ (linkedTo σ p) with
    | some σ' => pinsFold rec σ' ps
    | none => none

/-- Fueled `UBlueprintEventNodeSpawnerImpl::RemoveGhostNodes` (cpp lines
49-68).  The guard is `InNode && InNode->IsAutomaticallyPlacedGhostNode()`:
the node object must exist and be a ghost (graph membership is not checked,
matching the C++ pointer semantics).  After the pin loops the node's
remaining links are broken and the node is removed from the graph.  `none`
means the fuel ran out; `removeGhostNodes_fueled_total` below shows
`totalLinks σ + 1` fuel always suffices. -/
def rgnF : Nat → Graph → Nat → Option Graph
  | 0, _, _ => none
  | Nat.succ f, σ, n =>
    match lookupNode σ n with
    | some nd =>
      if nd.ghost then
        match pinsFold (fun σ' m => rgnF f σ' m) σ nd.pins with
        | some σ' => some (removeNode (breakAllNodeLinks σ' n) n)
        | none => none
      else some σ
    | none => some σ

/-- `RemoveGhostNodes`, run with sufficient fuel (the fallback to `σ` is
never taken; see `removeGhostNodes_fueled_total`). -/
def RemoveGhostNodes (σ : Graph) (n : Nat) : Graph :=
  (rgnF (totalLinks σ + 1) σ n).getD σ

/-- `UBlueprintEventNodeSpawner` state (cpp: `EventFunc`, `CustomEventName`,
`NodeClass`).  `customEventName = none` models `NAME_None`; the `NodeClass`
is modelled by whether it is a custom-event node class (the function-backed
`Create` sets `UK2Node_Event::StaticClass()`, cpp line 86, which is not a
custom-event class). -/
structure Spawner where
  eventFunc : Option Func
  customEventName : Option String
  nodeClassIsCustomEvent : Bool
deriving DecidableEq, Repr

/-- `UBlueprintEventNodeSpawner::IsForCustomEvent` (cpp lines 264-267):
`EventFunc == nullptr`. -/
def isForCustomEvent (sp : Spawner) : Bool :=
  sp.eventFunc.isNone

/-- Nodes currently in the blueprint's graph (the object table restricted to
the graph's node array). -/
def presentNodes (σ : Graph) : List Node :=
  σ.nodes.filter (fun nd => decide (nd.nid ∈ σ.present))

/-- Modelled from the spec: `FBlueprintEditorUtils::FindCustomEventNode` is
not in the provided source; per the spec the custom lookup matches "a node
flagged as a custom event with that exact name". -/
def findCustomEventNode (σ : Graph) (name : Option String) : Option Node :=
  (presentNodes σ).find?
    (fun nd => nd.isCustomEventNode && decide (nd.customFunctionName = name))

/-- Modelled from the spec: `FBlueprintEditorUtils::FindOverrideForFunction`
is not in the provided source; per the spec the function-backed lookup
matches "a node flagged as an override of that exact function, scoped to the
function's authoritative owning type" (`auth` resolves a class id to its
authoritative class id). -/
def findOverrideForFunction (auth : Nat → Nat) (σ : Graph) (classOwner : Nat)
    (funcName : String) : Option Node :=
  (presentNodes σ).find?
    (fun nd => nd.bOverrideFunction && decide (auth nd.eventRefClass = classOwner)
      && decide (nd.eventRefName = funcName))

/-- `UBlueprintEventNodeSpawner::FindPreExistingEvent` (cpp lines 243-261).
The `else` branch is only reachable with `EventFunc != nullptr`
(`check(EventFunc != nullptr)`, line 254), so the `none` fallback is dead. -/
def findPreExistingEvent (auth : Nat → Nat) (sp : Spawner) (σ : Graph) :
    Option Node :=
  if isForCustomEvent sp then
    findCustomEventNode σ sp.customEventName
  else
    match sp.eventFunc with
    | some f => findOverrideForFunction auth σ (auth f.ownerClass) f.name
    | none => none

/-- The single predicate the existing-node lookup applies per identity kind
(used to state uniqueness hypotheses; `findPreExistingEvent_eq_find` below
shows the lookup is exactly a first-match search with this predicate). -/
def eventNodeMatches (auth : Nat → Nat) (sp : Spawner) (nd : Node) : Bool :=
  match sp.eventFunc with
  | none => nd.isCustomEventNode && decide (nd.customFunctionName = sp.customEventName)
  | some f => nd.bOverrideFunction && decide (auth nd.eventRefClass = auth f.ownerClass)
      && decide (nd.eventRefName = f.name)

/-- All present nodes matching the identity. -/
def matchingNodes (auth : Nat → Nat) (sp : Spawner) (σ : Graph) : List Node :=
  (presentNodes σ).filter (eventNodeMatches auth sp)

/-- `EventName` as computed in `Invoke` (cpp lines 176-180): the custom name,
or the event function's name for a function-backed spawner. -/
def resolvedEventName (sp : Spawner) : Option String :=
  match sp.eventFunc with
  | some f => some f.name
  | none => sp.customEventName

/-- The function-graph scan of `Invoke` (cpp lines 183-185): the first
non-null function graph whose name equals `EventName`. -/
def findFuncGraphByName (fgs : List (Option FuncGraph)) (name : Option String) :
    Option FuncGraph :=
  match fgs with
  | [] => none
  | none :: rest => findFuncGraphByName rest name
  | some fg :: rest =>
    if some fg.name = name then some fg else findFuncGraphByName rest name

/-- `GetNodesOfClass<UK2Node_FunctionEntry>` on a function graph (cpp line
188). -/
def functionEntries (fg : FuncGraph) : List Node :=
  fg.nodes.filter (fun nd => nd.isFunctionEntry)

/-- The node spawned by `Super::SpawnNode` plus the `PostSpawnLambda`
initialization (cpp lines 211-228): a function-backed spawner binds the
event reference and sets `bOverrideFunction`; a custom spawner assigns
`CustomFunctionName` unless a template node is being built.  Modelled from
the spec for the parts outside the provided source: `SpawnNode` itself
"create(s) a new GraphNode of the requested kind" — the fresh node is live
(not a ghost), carries the spawner's node class, and its default pins and
their (empty) link sets are elided. -/
def spawnedNode (sp : Spawner) (σ : Graph) : Node :=
  let base : Node :=
    { nid := σ.nextId, ghost := false, pins := [],
      isCustomEventNode := sp.nodeClassIsCustomEvent,
      customFunctionName := none, bOverrideFunction := false,
      eventRefClass := 0, eventRefName := "", isFunctionEntry := false }
  match sp.eventFunc with
  | some f =>
    { base with
      eventRefClass := f.ownerClass
      eventRefName := f.name
      bOverrideFunction := true }
  | none =>
    if σ.isTemplateOuter then base
    else { base with customFunctionName := sp.customEventName }

/-- Attach the spawned node to the graph (`SpawnNode` adds the new node to
`ParentGraph`; the placement position carries no graph-visible state and is
elided). -/
def spawnEventNode (sp : Spawner) (σ : Graph) : Node × Graph :=
  (spawnedNode sp σ,
    { σ with
      nodes := σ.nodes ++ [spawnedNode sp σ]
      present := σ.present ++ [(spawnedNode sp σ).nid]
      nextId := σ.nextId + 1 })

/-- Result of `Invoke`: `fatal` models a failed `check(...)` assertion;
`ok node σ` is a normal return of `node` (possibly null) with the graph left
in state `σ`. -/
inductive InvokeResult where
  | fatal : InvokeResult
  | ok : Option Node → Graph → InvokeResult
deriving DecidableEq, Repr

/-- Spawn path of `Invoke` (cpp lines 209-229). -/
def invokeSpawn (sp : Spawner) (σ : Graph) : InvokeResult :=
  InvokeResult.ok (some (spawnEventNode sp σ).1) (spawnEventNode sp σ).2

/-- Existing-node / ghost-resurrection / spawn path of `Invoke` (cpp lines
163-171 and 200-233).  The pre-existing lookup (run before the function
graph scan in the source, side-effect free) is skipped for template outers. -/
def invokeLookupPath (auth : Nat → Nat) (sp : Spawner) (σ : Graph) :
    InvokeResult :=
  match (if σ.isTemplateOuter then none else findPreExistingEvent auth sp σ) with
  | some nd =>
    if nd.ghost then invokeSpawn sp (RemoveGhostNodes σ nd.nid)
    else InvokeResult.ok (some nd) σ
  | none => invokeSpawn sp σ

/-- Body of `Invoke` after the precondition checks: the named-function
shortcut (cpp lines 183-198), falling through to the lookup path. -/
def invokeBody (auth : Nat → Nat) (sp : Spawner) (σ : Graph) : InvokeResult :=
  match findFuncGraphByName σ.functionGraphs (resolvedEventName sp) with
  | some fg =>
    match functionEntries fg with
    | e :: _ => InvokeResult.ok (some e) σ
    | [] => InvokeResult.ok none σ
  | none => invokeLookupPath auth sp σ

/-- `UBlueprintEventNodeSpawner::Invoke` (cpp lines 158-234).
`check(ParentGraph != nullptr)` (line 160) models the null-graph assertion;
`check(bIsCustomEvent || (EventFunc != nullptr))` (line 174) is kept exactly
as written (`variantCheck_always_true` below shows it can never fail, since
`bIsCustomEvent` is defined as `EventFunc == nullptr`). -/
def invoke (auth : Nat → Nat) (sp : Spawner) (pg : Option Graph) : InvokeResult :=
  match pg with
  | none => InvokeResult.fatal
  | some σ =>
    if isForCustomEvent sp || sp.eventFunc.isSome then invokeBody auth sp σ
    else InvokeResult.fatal

/-- `UBlueprintEventNodeSpawner::GetSpawnerSignature` result (cpp lines
142-155): the signature is seeded with `NodeClass` and extended with either
the namespaced custom-event key/value or the function sub-object. -/
structure FBlueprintNodeSignature where
  nodeClassIsCustomEvent : Bool
  namedValues : List (String × String)
  subObjects : List (Option Func)
deriving DecidableEq, Repr

/-- `UBlueprintEventNodeSpawner::GetSpawnerSignature` (cpp lines 142-155). -/
def GetSpawnerSignature (sp : Spawner) : FBlueprintNodeSignature :=
  let base : FBlueprintNodeSignature :=
    { nodeClassIsCustomEvent := sp.nodeClassIsCustomEvent,
      namedValues := [], subObjects := [] }
  if isForCustomEvent sp && !sp.customEventName.isNone then
    { base with namedValues :=
        base.namedValues ++ [("CustomEvent", sp.customEventName.getD "")] }
  else
    { base with subObjects := base.subObjects ++ [sp.eventFunc] }

/-- A spawner as built by the two `Create` factories (cpp lines 75-132): the
custom-event factory is called with a custom-event node class, the
function-backed factory sets `UK2Node_Event::StaticClass()`. -/
def Spawner.WF (sp : Spawner) : Prop :=
  sp.nodeClassIsCustomEvent = sp.eventFunc.isNone

/-- Graph node-id well-formedness: ids in the object table are below the id
generator and are pairwise distinct (C++ node objects are distinct
pointers; a freshly allocated node is a new pointer). -/
def Graph.WFIds (σ : Graph) : Prop :=
  (∀ nd ∈ σ.nodes, nd.nid < σ.nextId) ∧ (σ.nodes.map Node.nid).Nodup

/-- What a ghost-cascade step preserves: the object table, the blueprint
data, the id generator and the template flag are untouched; the graph's
node array only shrinks; and a node that is alive and not a ghost is never
removed from the graph. -/
def GhostInv (σ σ' : Graph) : Prop :=
  σ'.nodes = σ.nodes ∧ σ'.functionGraphs = σ.functionGraphs ∧
  σ'.nextId = σ.nextId ∧ σ'.isTemplateOuter = σ.isTemplateOuter ∧
  (∀ x, x ∈ σ'.present → x ∈ σ.present) ∧
  (∀ m nd, lookupNode σ m = some nd → nd.ghost = false → m ∈ σ.present →
    m ∈ σ'.present)

/-! ### Concrete instances used by witnesses and counterexamples -/

/-- A plain ghost node with the given id and pins. -/
def ghostNode (n : Nat) (ps : List Nat) : Node :=
  { nid := n, ghost := true, pins := ps, isCustomEventNode := false,
    customFunctionName := none, bOverrideFunction := false,
    eventRefClass := 0, eventRefName := "", isFunctionEntry := false }

/-- A plain live (non-ghost) node with the given id and pins. -/
def liveNode (n : Nat) (ps : List Nat) : Node :=
  { nid := n, ghost := false, pins := ps, isCustomEventNode := false,
    customFunctionName := none, bOverrideFunction := false,
    eventRefClass := 0, eventRefName := "", isFunctionEntry := false }

/-- A live custom-event node with the given id and name. -/
def customEventNode (n : Nat) (name : String) : Node :=
  { nid := n, ghost := false, pins := [], isCustomEventNode := true,
    customFunctionName := some name, bOverrideFunction := false,
    eventRefClass := 0, eventRefName := "", isFunctionEntry := false }

/-- A chain of three mutually linked ghost nodes 1 — 2 — 3, with a live
node 4 linked to the chain's far end (so the "remaining graph" after the
cascade is non-empty and the dangling-link check is not vacuous). -/
def chainGraph : Graph :=
  { nodes := [ghostNode 1 [10], ghostNode 2 [20, 21], ghostNode 3 [30, 31],
      liveNode 4 [40]]
    present := [1, 2, 3, 4]
    pins :=
      [ { pid := 10, owner := 1, linkedTo := [20] },
        { pid := 20, owner := 2, linkedTo := [10] },
        { pid := 21, owner := 2, linkedTo := [30] },
        { pid := 30, owner := 3, linkedTo := [21] },
        { pid := 31, owner := 3, linkedTo := [40] },
        { pid := 40, owner := 4, linkedTo := [31] } ]
    nextId := 5
    isTemplateOuter := false
    functionGraphs := [] }

/-- An empty non-template graph. -/
def emptyGraph : Graph :=
  { nodes := [], present := [], pins := [], nextId := 0,
    isTemplateOuter := false, functionGraphs := [] }

/-- An empty template-outer graph (a `FBlueprintNodeTemplateCache` scratch
graph). -/
def tmplGraph : Graph :=
  { nodes := [], present := [], pins := [], nextId := 0,
    isTemplateOuter := true, functionGraphs := [] }

/-- A custom-event spawner for the name "Jump". -/
def jumpSpawner : Spawner :=
  { eventFunc := none, customEventName := some "Jump",
    nodeClassIsCustomEvent := true }

/-- A function-backed spawner wrapping a function named "Jump" owned by
class 5. -/
def jumpFuncSpawner : Spawner :=
  { eventFunc := some { ownerClass := 5, name := "Jump" },
    customEventName := none, nodeClassIsCustomEvent := false }

/-- The spawner with no variant set: `EventFunc == nullptr` and
`CustomEventName == NAME_None` (exactly what
`Create(NodeClass, NAME_None)` builds for the "Add Custom Event..." menu
action, cpp lines 104-132). -/
def noVariantSpawner : Spawner :=
  { eventFunc := none, customEventName := none, nodeClassIsCustomEvent := true }

/-- The node `invoke` spawns for `jumpSpawner` on `emptyGraph`. -/
def jumpNode : Node :=
  { nid := 0, ghost := false, pins := [], isCustomEventNode := true,
    customFunctionName := some "Jump", bOverrideFunction := false,
    eventRefClass := 0, eventRefName := "", isFunctionEntry := false }

/-- `emptyGraph` after spawning `jumpNode`. -/
def jumpGraph1 : Graph :=
  { nodes := [jumpNode], present := [0], pins := [], nextId := 1,
    isTemplateOuter := false, functionGraphs := [] }

/-- A function-entry node that is an automatically placed ghost. -/
def ghostEntryNode : Node :=
  { nid := 9, ghost := true, pins := [], isCustomEventNode := false,
    customFunctionName := none, bOverrideFunction := false,
    eventRefClass := 0, eventRefName := "", isFunctionEntry := true }

/-- A graph whose blueprint has a function sub-graph named "Jump" whose only
entry node is a ghost. -/
def ghostEntryGraph : Graph :=
  { nodes := [], present := [], pins := [], nextId := 0,
    isTemplateOuter := false,
    functionGraphs := [some { name := "Jump", nodes := [ghostEntryNode] }] }

/-- A live function-entry node. -/
def liveEntryNode : Node :=
  { nid := 9, ghost := false, pins := [], isCustomEventNode := false,
    customFunctionName := none, bOverrideFunction := false,
    eventRefClass := 0, eventRefName := "", isFunctionEntry := true }

/-- A graph whose blueprint has a function sub-graph named "Jump" with a
live entry node, and which also contains a matching custom-event node
elsewhere in the graph (the shadowing scenario). -/
def liveEntryGraph : Graph :=
  { nodes := [customEventNode 1 "Jump"]
    present := [1]
    pins := []
    nextId := 2
    isTemplateOuter := false
    functionGraphs := [some { name := "Jump", nodes := [liveEntryNode] }] }

/-- A graph whose blueprint has a function sub-graph named "Jump" with no
entry node. -/
def noEntryGraph : Graph :=
  { nodes := [], present := [], pins := [], nextId := 0,
    isTemplateOuter := false,
    functionGraphs := [some { name := "Jump", nodes := [liveNode 7 []] }] }

/-- A custom-event node named "Jump" that is an automatically placed ghost. -/
def ghostJumpNode : Node :=
  { nid := 3, ghost := true, pins := [], isCustomEventNode := true,
    customFunctionName := some "Jump", bOverrideFunction := false,
    eventRefClass := 0, eventRefName := "", isFunctionEntry := false }

/-- A graph containing only the ghost custom-event node `ghostJumpNode`. -/
def ghostJumpGraph : Graph :=
  { nodes := [ghostJumpNode], present := [3], pins := [], nextId := 4,
    isTemplateOuter := false, functionGraphs := [] }

/-- A graph containing a live custom-event node named "Jump". -/
def liveJumpGraph : Graph :=
  { nodes := [customEventNode 3 "Jump"]
    present := [3]
    pins := []
    nextId := 4
    isTemplateOuter := false
    functionGraphs := [] }

/-! ### Link-count measure lemmas -/

theorem breakLinkPin_length_le (a b : Nat) (pin : Pin) :
    (breakLinkPin a b pin).linkedTo.length ≤ pin.linkedTo.length := by
  unfold breakLinkPin
  split
  · exact List.length_filter_le _ _
  · split
    · exact List.length_filter_le _ _
    · exact Nat.le_refl _

theorem length_filter_ne_lt (l : List Nat) (b : Nat) (hb : b ∈ l) :
    (l.filter (fun x => decide (x ≠ b))).length < l.length := by
  induction l with
  | nil => cases hb
  | cons x xs ih =>
    by_cases hx : x = b
    · have hcond : (fun y => decide (y ≠ b)) x = false := by simp [hx]
      simp only [List.filter_cons, hcond, Bool.false_eq_true, if_false]
      exact Nat.lt_succ_of_le (List.length_filter_le _ _)
    · rcases List.mem_cons.mp hb with h | h
      · exact absurd h.symm hx
      · have := ih h
        simp only [List.filter_cons]
        split
        · simpa using Nat.succ_lt_succ this
        · exact Nat.lt_succ_of_lt this

theorem totalLinksL_breakLinkPins_le (ps : List Pin) (a b : Nat) :
    totalLinksL (breakLinkPins ps a b) ≤ totalLinksL ps := by
  induction ps with
  | nil => exact Nat.le_refl _
  | cons pin rest ih =>
    simp only [breakLinkPins, List.map_cons, totalLinksL]
    exact Nat.add_le_add (breakLinkPin_length_le a b pin) ih

theorem totalLinksL_breakLinkPins_lt (ps : List Pin) (p q : Nat)
    (hq : q ∈ linkedToL ps p) :
    totalLinksL (breakLinkPins ps q p) < totalLinksL ps := by
  induction ps with
  | nil => simp [linkedToL, lookupPinL] at hq
  | cons pin rest ih =>
    by_cases hp : pin.pid = p
    · have hlink : linkedToL (pin :: rest) p = pin.linkedTo := by
        simp [linkedToL, lookupPinL, List.find?_cons_of_pos, hp]
      rw [hlink] at hq
      have hhead : (breakLinkPin q p pin).linkedTo.length < pin.linkedTo.length := by
        unfold breakLinkPin
        by_cases hq' : pin.pid = q
        · rw [if_pos hq']
          have hqp : p = q := by rw [← hp, hq']
          rw [← hqp] at hq
          exact length_filter_ne_lt _ _ hq
        · rw [if_neg hq', if_pos hp]
          exact length_filter_ne_lt _ _ hq
      simp only [breakLinkPins, List.map_cons, totalLinksL]
      exact Nat.add_lt_add_of_lt_of_le hhead (totalLinksL_breakLinkPins_le rest q p)
    · have hlink : linkedToL (pin :: rest) p = linkedToL rest p := by
        simp [linkedToL, lookupPinL, List.find?_cons_of_neg, hp]
      rw [hlink] at hq
      simp only [breakLinkPins, List.map_cons, totalLinksL]
      exact Nat.add_lt_add_of_le_of_lt (breakLinkPin_length_le q p pin) (ih hq)

theorem foldl_totalLinksL_le {α : Type} (g : List Pin → α → List Pin)
    (hg : ∀ ps x, totalLinksL (g ps x) ≤ totalLinksL ps) :
    ∀ (L : List α) (ps : List Pin), totalLinksL (L.foldl g ps) ≤ totalLinksL ps := by
  intro L
  induction L with
  | nil => intro ps; exact Nat.le_refl _
  | cons x xs ih =>
    intro ps
    exact Nat.le_trans (ih (g ps x)) (hg ps x)

theorem totalLinksL_breakPinAllPins_le (ps : List Pin) (p : Nat) :
    totalLinksL (breakPinAllPins ps p) ≤ totalLinksL ps := by
  unfold breakPinAllPins
  exact foldl_totalLinksL_le _ (fun ps' q => totalLinksL_breakLinkPins_le ps' q p) _ ps

theorem totalLinks_breakLink_le (σ : Graph) (a b : Nat) :
    totalLinks (breakLink σ a b) ≤ totalLinks σ :=
  totalLinksL_breakLinkPins_le σ.pins a b

theorem totalLinks_breakLink_lt (σ : Graph) (p q : Nat)
    (hq : q ∈ linkedTo σ p) :
    totalLinks (breakLink σ q p) < totalLinks σ :=
  totalLinksL_breakLinkPins_lt σ.pins p q hq

theorem totalLinks_breakAllNodeLinks_le (σ : Graph) (n : Nat) :
    totalLinks (breakAllNodeLinks σ n) ≤ totalLinks σ := by
  unfold totalLinks breakAllNodeLinks
  cases lookupNode σ n with
  | none => exact Nat.le_refl _
  | some nd =>
    exact foldl_totalLinksL_le breakPinAllPins
      (fun ps p => totalLinksL_breakPinAllPins_le ps p) nd.pins σ.pins

theorem totalLinks_removeNode (σ : Graph) (n : Nat) :
    totalLinks (removeNode σ n) = totalLinks σ := rfl

/-! ### Fuel sufficiency: the ghost cascade terminates

The C++ recursion is not structurally decreasing: an entry of a stale
`LinkedTo` snapshot can trigger a recursive call without breaking any link.
The measure that does decrease is the global link count *per frame*: the
first entry processed in a frame always comes from a fresh snapshot, so its
break strictly decreases `totalLinks`, and every later recursive call of the
same frame happens at or below that value.  Hence every nested frame starts
with strictly fewer links than its parent, and `totalLinks σ + 1` fuel
suffices. -/

theorem linkedFold_total (rec : Graph → Nat → Option Graph) (f : Nat)
    (hrec : ∀ σ m, totalLinks σ < f →
      ∃ σ', rec σ m = some σ' ∧ totalLinks σ' ≤ totalLinks σ) :
    ∀ (qs : List Nat) (p : Nat) (σ : Graph),
      ((qs = linkedTo σ p ∧ totalLinks σ ≤ f) ∨ totalLinks σ < f) →
      ∃ σ', linkedFold rec p σ qs = some σ' ∧ totalLinks σ' ≤ totalLinks σ := by
  intro qs
  induction qs with
  | nil =>
    intro p σ _
    exact ⟨σ, rfl, Nat.le_refl _⟩
  | cons q qs ih =>
    intro p σ hcase
    have hlt : totalLinks (breakLink σ q p) < f := by
      rcases hcase with ⟨hfresh, hle⟩ | hslack
      · have hq : q ∈ linkedTo σ p := by rw [← hfresh]; exact List.mem_cons_self q qs
        exact Nat.lt_of_lt_of_le (totalLinks_breakLink_lt σ p q hq) hle
      · exact Nat.lt_of_le_of_lt (totalLinks_breakLink_le σ q p) hslack
    obtain ⟨σ₂, hrec2, hle2⟩ :=
      hrec (breakLink σ q p) (pinOwner (breakLink σ q p) q) hlt
    obtain ⟨σ', hfold, hle'⟩ := ih p σ₂ (Or.inr (Nat.lt_of_le_of_lt hle2 hlt))
    refine ⟨σ', ?_, ?_⟩
    · simp only [linkedFold, hrec2, hfold]
    · exact Nat.le_trans hle' (Nat.le_trans hle2 (totalLinks_breakLink_le σ q p))

theorem pinsFold_total (rec : Graph → Nat → Option Graph) (f : Nat)
    (hrec : ∀ σ m, totalLinks σ < f →
      ∃ σ', rec σ m = some σ' ∧ totalLinks σ' ≤ totalLinks σ) :
    ∀ (ps : List Nat) (σ : Graph), totalLinks σ ≤ f →
      ∃ σ', pinsFold rec σ ps = some σ' ∧ totalLinks σ' ≤ totalLinks σ := by
  intro ps
  induction ps with
  | nil =>
    intro σ _
    exact ⟨σ, rfl, Nat.le_refl _⟩
  | cons p ps ih =>
    intro σ hle
    obtain ⟨σ₁, hfold1, hle1⟩ :=
      linkedFold_total rec f hrec (linkedTo σ p) p σ (Or.inl ⟨rfl, hle⟩)
    obtain ⟨σ', hfold', hle'⟩ := ih σ₁ (Nat.le_trans hle1 hle)
    refine ⟨σ', ?_, Nat.le_trans hle' hle1⟩
    simp only [pinsFold, hfold1, hfold']

theorem rgnF_total :
    ∀ (f : Nat) (σ : Graph) (n : Nat), totalLinks σ < f →
      ∃ σ', rgnF f σ n = some σ' ∧ totalLinks σ' ≤ totalLinks σ := by
  intro f
  induction f with
  | zero => intro σ n h; exact absurd h (Nat.not_lt_zero _)
  | succ f ih =>
    intro σ n hlt
    cases hnd : lookupNode σ n with
    | none => exact ⟨σ, by simp [rgnF, hnd], Nat.le_refl _⟩
    | some nd =>
      by_cases hg : nd.ghost
      · obtain ⟨σ₁, hfold, hle1⟩ :=
          pinsFold_total (fun σ' m => rgnF f σ' m) f ih nd.pins σ
            (Nat.le_of_lt_succ hlt)
        refine ⟨removeNode (breakAllNodeLinks σ₁ n) n, ?_, ?_⟩
        · simp only [rgnF, hnd, hg, if_true, hfold]
        · rw [totalLinks_removeNode]
          exact Nat.le_trans (totalLinks_breakAllNodeLinks_le σ₁ n) hle1
      · refine ⟨σ, ?_, Nat.le_refl _⟩
        simp [rgnF, hnd, hg]

/-- `RemoveGhostNodes` equals the fueled computation (the fuel never runs
out). -/
theorem RemoveGhostNodes_eq (σ : Graph) (n : Nat) :
    rgnF (totalLinks σ + 1) σ n = some (RemoveGhostNodes σ n) := by
  obtain ⟨σ', h, _⟩ := rgnF_total (totalLinks σ + 1) σ n (Nat.lt_succ_self _)
  rw [RemoveGhostNodes, h]
  rfl

/-! ### Structural invariants of the ghost cascade -/

theorem lookupNode_nodes_eq {σ σ' : Graph} (h : σ'.nodes = σ.nodes) (m : Nat) :
    lookupNode σ' m = lookupNode σ m := by
  unfold lookupNode
  rw [h]

theorem ghostInv_refl (σ : Graph) : GhostInv σ σ :=
  ⟨rfl, rfl, rfl, rfl, fun _ h => h, fun _ _ _ _ h => h⟩

theorem ghostInv_trans {σ₁ σ₂ σ₃ : Graph} (h12 : GhostInv σ₁ σ₂)
    (h23 : GhostInv σ₂ σ₃) : GhostInv σ₁ σ₃ := by
  obtain ⟨hn12, hf12, hi12, ht12, hp12, hk12⟩ := h12
  obtain ⟨hn23, hf23, hi23, ht23, hp23, hk23⟩ := h23
  refine ⟨hn23.trans hn12, hf23.trans hf12, hi23.trans hi12, ht23.trans ht12,
    fun x hx => hp12 x (hp23 x hx), ?_⟩
  intro m nd hlk hg hm
  exact hk23 m nd ((lookupNode_nodes_eq hn12 m).trans hlk) hg (hk12 m nd hlk hg hm)

theorem ghostInv_pins_update (σ : Graph) (ps : List Pin) :
    GhostInv σ { σ with pins := ps } :=
  ⟨rfl, rfl, rfl, rfl, fun _ h => h, fun _ _ _ _ h => h⟩

theorem ghostInv_breakLink (σ : Graph) (a b : Nat) :
    GhostInv σ (breakLink σ a b) :=
  ghostInv_pins_update σ _

theorem ghostInv_breakAllNodeLinks (σ : Graph) (n : Nat) :
    GhostInv σ (breakAllNodeLinks σ n) :=
  ghostInv_pins_update σ _

theorem ghostInv_removeNode (σ : Graph) (n : Nat) (nd : Node)
    (hlk : lookupNode σ n = some nd) (hg : nd.ghost = true) :
    GhostInv σ (removeNode σ n) := by
  refine ⟨rfl, rfl, rfl, rfl, ?_, ?_⟩
  · intro x hx
    exact (List.mem_filter.mp hx).1
  · intro m nd' hlk' hg' hm
    refine List.mem_filter.mpr ⟨hm, ?_⟩
    have hne : m ≠ n := by
      intro he
      rw [he, hlk] at hlk'
      injection hlk' with hnd
      rw [hnd, hg'] at hg
      exact Bool.false_ne_true hg
    simp [hne]

theorem linkedFold_inv (rec : Graph → Nat → Option Graph)
    (hrec : ∀ σ m σ', rec σ m = some σ' → GhostInv σ σ') :
    ∀ (qs : List Nat) (p : Nat) (σ σ' : Graph),
      linkedFold rec p σ qs = some σ' → GhostInv σ σ' := by
  intro qs
  induction qs with
  | nil =>
    intro p σ σ' h
    injection h with h
    rw [← h]
    exact ghostInv_refl σ
  | cons q qs ih =>
    intro p σ σ' h
    simp only [linkedFold] at h
    cases hr : rec (breakLink σ q p) (pinOwner (breakLink σ q p) q) with
    | none => rw [hr] at h; cases h
    | some σ₂ =>
      rw [hr] at h
      exact ghostInv_trans
        (ghostInv_trans (ghostInv_breakLink σ q p) (hrec _ _ _ hr))
        (ih p σ₂ σ' h)

theorem pinsFold_inv (rec : Graph → Nat → Option Graph)
    (hrec : ∀ σ m σ', rec σ m = some σ' → GhostInv σ σ') :
    ∀ (ps : List Nat) (σ σ' : Graph),
      pinsFold rec σ ps = some σ' → GhostInv σ σ' := by
  intro ps
  induction ps with
  | nil =>
    intro σ σ' h
    injection h with h
    rw [← h]
    exact ghostInv_refl σ
  | cons p ps ih =>
    intro σ σ' h
    simp only [pinsFold] at h
    cases hr : linkedFold rec p σ (linkedTo σ p) with
    | none => rw [hr] at h; cases h
    | some σ₂ =>
      rw [hr] at h
      exact ghostInv_trans (linkedFold_inv rec hrec _ p σ σ₂ hr) (ih σ₂ σ' h)

theorem rgnF_inv :
    ∀ (f : Nat) (σ : Graph) (n : Nat) (σ' : Graph),
      rgnF f σ n = some σ' → GhostInv σ σ' := by
  intro f
  induction f with
  | zero => intro σ n σ' h; cases h
  | succ f ih =>
    intro σ n σ' h
    cases hnd : lookupNode σ n with
    | none =>
      simp only [rgnF, hnd] at h
      injection h with h
      rw [← h]
      exact ghostInv_refl σ
    | some nd =>
      simp only [rgnF, hnd] at h
      by_cases hg : nd.ghost = true
      · rw [if_pos hg] at h
        cases hf : pinsFold (fun σa m => rgnF f σa m) σ nd.pins with
        | none => rw [hf] at h; cases h
        | some σ₂ =>
          rw [hf] at h
          injection h with h
          rw [← h]
          have h1 : GhostInv σ σ₂ :=
            pinsFold_inv _ (fun σa m σb hab => ih σa m σb hab) nd.pins σ σ₂ hf
          have h2 : GhostInv σ₂ (breakAllNodeLinks σ₂ n) :=
            ghostInv_breakAllNodeLinks σ₂ n
          have hlk2 : lookupNode (breakAllNodeLinks σ₂ n) n = some nd := by
            have hne : (breakAllNodeLinks σ₂ n).nodes = σ.nodes := by
              show σ₂.nodes = σ.nodes
              exact h1.1
            rw [lookupNode_nodes_eq hne]
            exact hnd
          exact ghostInv_trans h1 (ghostInv_trans h2
            (ghostInv_removeNode _ n nd hlk2 hg))
      · rw [if_neg hg] at h
        injection h with h
        rw [← h]
        exact ghostInv_refl σ

theorem ghostInv_removeGhostNodes (σ : Graph) (n : Nat) :
    GhostInv σ (RemoveGhostNodes σ n) :=
  rgnF_inv _ σ n _ (RemoveGhostNodes_eq σ n)

/-- The start node of the cascade, when it exists and is a ghost, ends up
removed from the graph. -/
theorem removeGhostNodes_removes_start (σ : Graph) (n : Nat) (nd : Node)
    (hlk : lookupNode σ n = some nd) (hg : nd.ghost = true) :
    n ∉ (RemoveGhostNodes σ n).present := by
  have h := RemoveGhostNodes_eq σ n
  rw [show totalLinks σ + 1 = Nat.succ (totalLinks σ) from rfl] at h
  simp only [rgnF, hlk, hg, if_true] at h
  cases hf : pinsFold (fun σa m => rgnF (totalLinks σ) σa m) σ nd.pins with
  | none => rw [hf] at h; cases h
  | some σ₂ =>
    rw [hf] at h
    injection h with h
    rw [← h]
    intro hmem
    have := (List.mem_filter.mp hmem).2
    simp at this

/-! ### Claim C10, C5, C6 -/

/-- C10: Termination of the ghost cascade.  `RemoveGhostNodes` terminates on
every finite graph, cyclically linked ghost nodes included: the fueled
recursion `rgnF` completes within `totalLinks σ + 1` nesting levels, because
every nested recursive frame starts with strictly fewer pin-link entries
than its parent frame (the first snapshot entry a frame processes is always
live, so its `BreakLinkTo` strictly decreases the global link count before
any recursion, and the count never grows). -/
theorem removeGhostNodes_terminates (σ : Graph) (n : Nat) :
    (rgnF (totalLinks σ + 1) σ n).isSome = true := by
  rw [RemoveGhostNodes_eq σ n]
  rfl

/-- C5: Cascade completeness.  On the graph holding the ghost chain
1 — 2 — 3 (entered at node 1) plus a live neighbor 4, the cascade removes
all three ghost nodes and leaves zero dangling links: every pin of the
graph ends with an empty `LinkedTo` list, so no pin of the remaining graph
still points at a removed node. -/
theorem removeGhostNodes_chain_complete :
    (RemoveGhostNodes chainGraph 1).present = [4] ∧
    ((RemoveGhostNodes chainGraph 1).pins.all
      (fun p => p.linkedTo.isEmpty)) = true := by
  decide

/-- C6: Ghost-only deletion invariant.  The cascade never deletes a
non-ghost node: any node present in the graph whose object is not an
automatically placed ghost is still present after `RemoveGhostNodes`, and
the node object table is untouched (only links are severed and ghost nodes
removed). -/
theorem removeGhostNodes_preserves_nonghost (σ : Graph) (n m : Nat)
    (nd : Node) (hlk : lookupNode σ m = some nd) (hg : nd.ghost = false)
    (hm : m ∈ σ.present) :
    m ∈ (RemoveGhostNodes σ n).present ∧
    (RemoveGhostNodes σ n).nodes = σ.nodes := by
  have h := ghostInv_removeGhostNodes σ n
  exact ⟨h.2.2.2.2.2 m nd hlk hg hm, h.1⟩

theorem removeGhostNodes_preserves_nonghost_witness :
    4 ∈ (RemoveGhostNodes chainGraph 1).present ∧
    (RemoveGhostNodes chainGraph 1).nodes = chainGraph.nodes :=
  removeGhostNodes_preserves_nonghost chainGraph 1 4 (liveNode 4 [40])
    (by decide) (by decide) (by decide)

/-! ### Invoke path lemmas -/

/-- The `check(bIsCustomEvent || (EventFunc != nullptr))` at cpp line 174 is
a tautology: `bIsCustomEvent` is defined as `EventFunc == nullptr`
(`IsForCustomEvent`, cpp line 266), so the assertion can never fire. -/
theorem variantCheck_always_true (sp : Spawner) :
    (isForCustomEvent sp || sp.eventFunc.isSome) = true := by
  cases h : sp.eventFunc <;> simp [isForCustomEvent, h]

theorem invoke_some (auth : Nat → Nat) (sp : Spawner) (σ : Graph) :
    invoke auth sp (some σ) = invokeBody auth sp σ := by
  simp [invoke, variantCheck_always_true sp]

theorem findFuncGraphByName_eq_some (fgs : List (Option FuncGraph))
    (name : Option String) (fg : FuncGraph)
    (hmem : some fg ∈ fgs) (hname : some fg.name = name)
    (huniq : ∀ fg', some fg' ∈ fgs → some fg'.name = name → fg' = fg) :
    findFuncGraphByName fgs name = some fg := by
  induction fgs with
  | nil => cases hmem
  | cons hd rest ih =>
    cases hd with
    | none =>
      simp only [findFuncGraphByName]
      apply ih
      · rcases List.mem_cons.mp hmem with h | h
        · exact absurd h (by simp)
        · exact h
      · exact fun fg' hm hn => huniq fg' (List.mem_cons_of_mem _ hm) hn
    | some g =>
      simp only [findFuncGraphByName]
      by_cases hg : some g.name = name
      · rw [if_pos hg]
        rw [huniq g (List.mem_cons_self _ _) hg]
      · rw [if_neg hg]
        apply ih
        · rcases List.mem_cons.mp hmem with h | h
          · injection h with h2
            rw [h2] at hname
            exact absurd hname hg
          · exact h
        · exact fun fg' hm hn => huniq fg' (List.mem_cons_of_mem _ hm) hn

/-! ### Claims C2 and C3 -/

/-- C2: Function-name shadowing.  If the blueprint contains a (unique)
function sub-graph whose name equals the identity's resolved name and that
sub-graph has an entry node, `Invoke` returns that sub-graph's first entry
node and leaves the graph unchanged (no node is created), regardless of any
matching event node elsewhere in the graph. -/
theorem materialize_function_shadowing (auth : Nat → Nat) (sp : Spawner)
    (σ : Graph) (fg : FuncGraph) (e : Node) (rest : List Node)
    (hmem : some fg ∈ σ.functionGraphs)
    (hname : some fg.name = resolvedEventName sp)
    (huniq : ∀ fg', some fg' ∈ σ.functionGraphs →
      some fg'.name = resolvedEventName sp → fg' = fg)
    (hentries : functionEntries fg = e :: rest) :
    invoke auth sp (some σ) = InvokeResult.ok (some e) σ := by
  rw [invoke_some]
  simp only [invokeBody,
    findFuncGraphByName_eq_some σ.functionGraphs (resolvedEventName sp) fg
      hmem hname huniq,
    hentries]

theorem materialize_function_shadowing_witness :
    invoke (fun c => c) jumpSpawner (some liveEntryGraph) =
      InvokeResult.ok (some liveEntryNode) liveEntryGraph :=
  materialize_function_shadowing (fun c => c) jumpSpawner liveEntryGraph
    { name := "Jump", nodes := [liveEntryNode] } liveEntryNode []
    (by decide) (by decide)
    (by
      intro fg' hm hn
      rw [show liveEntryGraph.functionGraphs =
        [some ({ name := "Jump", nodes := [liveEntryNode] } : FuncGraph)] from rfl] at hm
      injection List.mem_singleton.mp hm)
    (by decide)

/-- C3: Missing entry point.  If the (unique) function sub-graph matching
the identity's resolved name has no entry node, `Invoke` returns null with
the graph unchanged — it does not fall through to node creation and raises
no assertion. -/
theorem materialize_missing_entry_null (auth : Nat → Nat) (sp : Spawner)
    (σ : Graph) (fg : FuncGraph)
    (hmem : some fg ∈ σ.functionGraphs)
    (hname : some fg.name = resolvedEventName sp)
    (huniq : ∀ fg', some fg' ∈ σ.functionGraphs →
      some fg'.name = resolvedEventName sp → fg' = fg)
    (hentries : functionEntries fg = []) :
    invoke auth sp (some σ) = InvokeResult.ok none σ := by
  rw [invoke_some]
  simp only [invokeBody,
    findFuncGraphByName_eq_some σ.functionGraphs (resolvedEventName sp) fg
      hmem hname huniq,
    hentries]

theorem materialize_missing_entry_null_witness :
    invoke (fun c => c) jumpSpawner (some noEntryGraph) =
      InvokeResult.ok none noEntryGraph :=
  materialize_missing_entry_null (fun c => c) jumpSpawner noEntryGraph
    { name := "Jump", nodes := [liveNode 7 []] }
    (by decide) (by decide)
    (by
      intro fg' hm hn
      rw [show noEntryGraph.functionGraphs =
        [some ({ name := "Jump", nodes := [liveNode 7 []] } : FuncGraph)] from rfl] at hm
      injection List.mem_singleton.mp hm)
    (by decide)

/-! ### Claim C7 -/

/-- The pre-existing lookup is a first-match search over the graph's
present nodes with the per-identity match predicate. -/
theorem findPreExistingEvent_eq_find (auth : Nat → Nat) (sp : Spawner)
    (σ : Graph) :
    findPreExistingEvent auth sp σ =
      (presentNodes σ).find? (eventNodeMatches auth sp) := by
  cases h : sp.eventFunc with
  | none =>
    have hp : eventNodeMatches auth sp = fun nd =>
        nd.isCustomEventNode && decide (nd.customFunctionName = sp.customEventName) := by
      funext nd
      simp [eventNodeMatches, h]
    simp [findPreExistingEvent, isForCustomEvent, h, findCustomEventNode, hp]
  | some f =>
    have hp : eventNodeMatches auth sp = fun nd =>
        nd.bOverrideFunction && decide (auth nd.eventRefClass = auth f.ownerClass)
          && decide (nd.eventRefName = f.name) := by
      funext nd
      simp [eventNodeMatches, h]
    simp [findPreExistingEvent, isForCustomEvent, h, findOverrideForFunction, hp]

/-- C7: Custom vs. function-backed disambiguation.  On a graph whose nodes
carry at most one of the two event flavors (a custom-event node is not
simultaneously flagged as a function override — the spawner itself only ever
sets one of the two, cpp lines 211-225), a custom identity named `N` and a
function-backed identity whose function is named `N` are never matched to
the same existing node: the custom lookup requires the custom-event flag,
the function-backed lookup requires the override flag. -/
theorem custom_vs_function_disambiguation (auth : Nat → Nat) (σ : Graph)
    (sp₁ sp₂ : Spawner) (f : Func) (N : String)
    (hwf : ∀ nd ∈ σ.nodes, nd.isCustomEventNode = true →
      nd.bOverrideFunction = false)
    (h1 : sp₁.eventFunc = none) (h1n : sp₁.customEventName = some N)
    (h2 : sp₂.eventFunc = some f) (hfn : f.name = N)
    (nd : Node) (hfind : findPreExistingEvent auth sp₁ σ = some nd) :
    findPreExistingEvent auth sp₂ σ ≠ some nd := by
  intro hfind2
  rw [findPreExistingEvent_eq_find] at hfind hfind2
  have hmem := List.mem_of_find?_eq_some hfind
  have hp1 := List.find?_some hfind
  have hp2 := List.find?_some hfind2
  simp only [eventNodeMatches, h1] at hp1
  simp only [eventNodeMatches, h2] at hp2
  have hc : nd.isCustomEventNode = true := (Bool.and_eq_true_iff.mp hp1).1
  have ho : nd.bOverrideFunction = true :=
    (Bool.and_eq_true_iff.mp (Bool.and_eq_true_iff.mp hp2).1).1
  have hnodes : nd ∈ σ.nodes := (List.mem_filter.mp hmem).1
  rw [hwf nd hnodes hc] at ho
  exact Bool.false_ne_true ho

theorem custom_vs_function_disambiguation_witness :
    findPreExistingEvent (fun c => c) jumpFuncSpawner liveJumpGraph ≠
      some (customEventNode 3 "Jump") :=
  custom_vs_function_disambiguation (fun c => c) liveJumpGraph
    jumpSpawner jumpFuncSpawner { ownerClass := 5, name := "Jump" } "Jump"
    (by decide) rfl rfl rfl rfl (customEventNode 3 "Jump") (by decide)

/-! ### Claim C8 -/

/-- C8 counterexample: the no-variant spawner (`EventFunc == nullptr`,
`CustomEventName == NAME_None`, as built by `Create(NodeClass, NAME_None)`
for the "Add Custom Event..." action) is a custom identity by the code's own
predicate (`IsForCustomEvent` is true), yet its signature is not the
namespaced key plus name: the `CustomEventName.IsNone()` test (cpp line 145)
routes it to the `AddSubObject` branch with a null function. -/
theorem spawner_signature_cex :
    isForCustomEvent noVariantSpawner = true ∧
    GetSpawnerSignature noVariantSpawner =
      { nodeClassIsCustomEvent := true, namedValues := [],
        subObjects := [none] } := by
  decide

/-- C8 amended: a function-backed identity's signature keys off the function
object; a custom identity's signature keys off the namespaced "CustomEvent"
key plus the name string provided the custom name is set — the unnamed
custom spawner instead falls to the sub-object branch with a null
function. -/
theorem spawner_signature_amended (sp : Spawner) :
    (∀ f : Func, sp.eventFunc = some f →
      GetSpawnerSignature sp =
        { nodeClassIsCustomEvent := sp.nodeClassIsCustomEvent,
          namedValues := [], subObjects := [some f] }) ∧
    (∀ N : String, sp.eventFunc = none → sp.customEventName = some N →
      GetSpawnerSignature sp =
        { nodeClassIsCustomEvent := sp.nodeClassIsCustomEvent,
          namedValues := [("CustomEvent", N)], subObjects := [] }) := by
  constructor
  · intro f hf
    simp [GetSpawnerSignature, isForCustomEvent, hf]
  · intro N hf hN
    simp [GetSpawnerSignature, isForCustomEvent, hf, hN]

theorem spawner_signature_amended_witness :
    GetSpawnerSignature jumpFuncSpawner =
      { nodeClassIsCustomEvent := false, namedValues := [],
        subObjects := [some { ownerClass := 5, name := "Jump" }] } ∧
    GetSpawnerSignature jumpSpawner =
      { nodeClassIsCustomEvent := true,
        namedValues := [("CustomEvent", "Jump")], subObjects := [] } :=
  ⟨(spawner_signature_amended jumpFuncSpawner).1
      { ownerClass := 5, name := "Jump" } rfl,
   (spawner_signature_amended jumpSpawner).2 "Jump" rfl rfl⟩

/-! ### Claim C9 -/

/-- The body of `Invoke` past the precondition checks always returns a
(possibly null) node: no later code path asserts. -/
theorem invokeBody_ne_fatal (auth : Nat → Nat) (sp : Spawner) (σ : Graph) :
    invokeBody auth sp σ ≠ InvokeResult.fatal := by
  unfold invokeBody invokeLookupPath invokeSpawn
  split
  · split <;> (intro h; cases h)
  · split
    · split <;> (intro h; cases h)
    · intro h; cases h

/-- C9 counterexample: an identity with no variant set (null `EventFunc`,
`NAME_None` custom name) does not trigger any fatal assertion — the guarding
`check(bIsCustomEvent || (EventFunc != nullptr))` (cpp line 174) is a
tautology, so `Invoke` proceeds and returns a result. -/
theorem precondition_assert_cex :
    noVariantSpawner.eventFunc = none ∧
    noVariantSpawner.customEventName = none ∧
    invoke (fun c => c) noVariantSpawner (some emptyGraph) ≠
      InvokeResult.fatal := by
  decide

/-- C9 amended: invoking with a null graph triggers the fatal assertion
(`check(ParentGraph != nullptr)`, cpp line 160); an identity with no variant
set does not assert — it is treated as a custom event (the variant check is
a tautology) and `Invoke` proceeds to the lookup/creation paths. -/
theorem precondition_assert_amended :
    (∀ (auth : Nat → Nat) (sp : Spawner),
      invoke auth sp none = InvokeResult.fatal) ∧
    (∀ (auth : Nat → Nat) (sp : Spawner) (σ : Graph),
      sp.eventFunc = none → sp.customEventName = none →
      invoke auth sp (some σ) ≠ InvokeResult.fatal) := by
  constructor
  · intro auth sp
    rfl
  · intro auth sp σ _ _
    rw [invoke_some]
    exact invokeBody_ne_fatal auth sp σ

theorem precondition_assert_amended_witness :
    invoke (fun c => c) jumpSpawner none = InvokeResult.fatal ∧
    invoke (fun c => c) noVariantSpawner (some emptyGraph) ≠
      InvokeResult.fatal :=
  ⟨precondition_assert_amended.1 (fun c => c) jumpSpawner,
   precondition_assert_amended.2 (fun c => c) noVariantSpawner emptyGraph
     rfl rfl⟩

/-! ### Spawn and lookup lemmas -/

theorem spawnEventNode_fst (sp : Spawner) (σ : Graph) :
    (spawnEventNode sp σ).1 = spawnedNode sp σ := rfl

theorem spawnEventNode_nodes (sp : Spawner) (σ : Graph) :
    (spawnEventNode sp σ).2.nodes = σ.nodes ++ [spawnedNode sp σ] := rfl

theorem spawnEventNode_present (sp : Spawner) (σ : Graph) :
    (spawnEventNode sp σ).2.present =
      σ.present ++ [(spawnedNode sp σ).nid] := rfl

theorem spawnEventNode_nextId (sp : Spawner) (σ : Graph) :
    (spawnEventNode sp σ).2.nextId = σ.nextId + 1 := rfl

theorem spawnEventNode_isTemplateOuter (sp : Spawner) (σ : Graph) :
    (spawnEventNode sp σ).2.isTemplateOuter = σ.isTemplateOuter := rfl

theorem spawnEventNode_functionGraphs (sp : Spawner) (σ : Graph) :
    (spawnEventNode sp σ).2.functionGraphs = σ.functionGraphs := rfl

theorem spawnedNode_ghost (sp : Spawner) (σ : Graph) :
    (spawnedNode sp σ).ghost = false := by
  cases h : sp.eventFunc with
  | some f => simp [spawnedNode, h]
  | none =>
    by_cases ht : σ.isTemplateOuter = true
    · simp [spawnedNode, h, ht]
    · simp [spawnedNode, h, ht]

theorem spawnedNode_nid (sp : Spawner) (σ : Graph) :
    (spawnedNode sp σ).nid = σ.nextId := by
  cases h : sp.eventFunc with
  | some f => simp [spawnedNode, h]
  | none =>
    by_cases ht : σ.isTemplateOuter = true
    · simp [spawnedNode, h, ht]
    · simp [spawnedNode, h, ht]

/-- On a non-template graph, the node spawned by a well-formed spawner
matches its own identity in the pre-existing lookup. -/
theorem eventNodeMatches_spawnedNode (auth : Nat → Nat) (sp : Spawner)
    (σ : Graph) (hsp : sp.WF) (htm : σ.isTemplateOuter = false) :
    eventNodeMatches auth sp (spawnedNode sp σ) = true := by
  cases h : sp.eventFunc with
  | some f => simp [eventNodeMatches, spawnedNode, h]
  | none =>
    have hcls : sp.nodeClassIsCustomEvent = true := by
      have hw := hsp
      rw [Spawner.WF] at hw
      rw [hw, h]
      rfl
    simp [eventNodeMatches, spawnedNode, h, htm, hcls]

theorem presentNodes_spawn (sp : Spawner) (σ : Graph)
    (hids : ∀ nd ∈ σ.nodes, nd.nid < σ.nextId) :
    presentNodes (spawnEventNode sp σ).2 =
      presentNodes σ ++ [spawnedNode sp σ] := by
  show (σ.nodes ++ [spawnedNode sp σ]).filter
      (fun nd => decide (nd.nid ∈ σ.present ++ [(spawnedNode sp σ).nid]))
    = σ.nodes.filter (fun nd => decide (nd.nid ∈ σ.present)) ++ [spawnedNode sp σ]
  rw [List.filter_append]
  congr 1
  · apply List.filter_congr
    intro x hx
    have hne : x.nid ≠ (spawnedNode sp σ).nid := by
      rw [spawnedNode_nid]
      exact Nat.ne_of_lt (hids x hx)
    simp [List.mem_append, hne]
  · simp [List.mem_append]

theorem find_append_last {p : Node → Bool} (l : List Node) (nd : Node)
    (hnone : l.find? p = none) (hp : p nd = true) :
    (l ++ [nd]).find? p = some nd := by
  rw [List.find?_append, hnone]
  simp [List.find?_cons_of_pos _ hp]

theorem find_nid_of_mem_nodup :
    ∀ (l : List Node) (g : Node), (l.map Node.nid).Nodup → g ∈ l →
      l.find? (fun nd => decide (nd.nid = g.nid)) = some g := by
  intro l
  induction l with
  | nil => intro g _ hm; cases hm
  | cons x xs ih =>
    intro g hnodup hmem
    rw [List.map_cons] at hnodup
    have hnd := List.nodup_cons.mp hnodup
    rcases List.mem_cons.mp hmem with h | h
    · rw [h]
      exact List.find?_cons_of_pos _ (by simp)
    · have hx : ¬ (x.nid = g.nid) := by
        intro he
        apply hnd.1
        rw [he]
        exact List.mem_map_of_mem Node.nid h
      rw [List.find?_cons_of_neg _ (by simp [hx])]
      exact ih g hnd.2 h

theorem lookupNode_of_mem_nodup (σ : Graph) (g : Node)
    (hnodup : (σ.nodes.map Node.nid).Nodup) (hmem : g ∈ σ.nodes) :
    lookupNode σ g.nid = some g :=
  find_nid_of_mem_nodup σ.nodes g hnodup hmem

theorem eq_of_mem_of_length_le_one {α : Type} :
    ∀ (l : List α), l.length ≤ 1 → ∀ {a b : α}, a ∈ l → b ∈ l → a = b := by
  intro l
  match l with
  | [] => intro _ a b ha _; cases ha
  | [x] =>
    intro _ a b ha hb
    rw [List.mem_singleton.mp ha, List.mem_singleton.mp hb]
  | x :: y :: t =>
    intro h
    exfalso
    simp only [List.length_cons] at h
    omega

theorem presentNodes_subset_of_ghostInv {σ σ' : Graph} (h : GhostInv σ σ')
    {x : Node} (hx : x ∈ presentNodes σ') : x ∈ presentNodes σ := by
  have hm := List.mem_filter.mp hx
  refine List.mem_filter.mpr ⟨?_, ?_⟩
  · rw [← h.1]
    exact hm.1
  · have hxp : x.nid ∈ σ'.present := by simpa using hm.2
    simpa using h.2.2.2.2.1 x.nid hxp

/-- After spawning into `σ'` (reached from `σ` by zero or more
ghost-removal steps), the pre-existing lookup of a second `Invoke` finds
exactly the spawned node, and the second call returns it without touching
the graph. -/
theorem invoke_after_spawn (auth : Nat → Nat) (sp : Spawner) (σ σ' : Graph)
    (hsp : sp.WF) (hinv : GhostInv σ σ')
    (htm : σ.isTemplateOuter = false)
    (hlt : ∀ x ∈ σ.nodes, x.nid < σ.nextId)
    (hfg : findFuncGraphByName σ.functionGraphs (resolvedEventName sp) = none)
    (hnomatch : ∀ x ∈ presentNodes σ', eventNodeMatches auth sp x = false) :
    invoke auth sp (some (spawnEventNode sp σ').2) =
      InvokeResult.ok (some (spawnedNode sp σ')) (spawnEventNode sp σ').2 := by
  rw [invoke_some]
  unfold invokeBody
  have hfg1 : findFuncGraphByName (spawnEventNode sp σ').2.functionGraphs
      (resolvedEventName sp) = none := by
    rw [spawnEventNode_functionGraphs, hinv.2.1, hfg]
  simp only [hfg1]
  unfold invokeLookupPath
  have htm1 : (spawnEventNode sp σ').2.isTemplateOuter = false := by
    rw [spawnEventNode_isTemplateOuter, hinv.2.2.2.1, htm]
  have htm' : σ'.isTemplateOuter = false := by
    rw [hinv.2.2.2.1, htm]
  have hlt' : ∀ x ∈ σ'.nodes, x.nid < σ'.nextId := by
    intro x hx
    rw [hinv.2.2.1]
    refine hlt x ?_
    rw [← hinv.1]
    exact hx
  have hfind : findPreExistingEvent auth sp (spawnEventNode sp σ').2 =
      some (spawnedNode sp σ') := by
    rw [findPreExistingEvent_eq_find, presentNodes_spawn sp σ' hlt']
    refine find_append_last _ _ (List.find?_eq_none.mpr ?_)
      (eventNodeMatches_spawnedNode auth sp σ' hsp htm')
    intro x hx
    simp [hnomatch x hx]
  simp only [htm1, Bool.false_eq_true, if_false, hfind]
  rw [if_neg (by simp [spawnedNode_ghost])]

/-! ### Claim C4 -/

/-- C4 counterexample: the named-function shortcut (cpp lines 183-198)
returns the sub-graph's first `UK2Node_FunctionEntry` without checking its
ghost flag, so `Invoke` can return a ghost node: on a graph whose matching
function sub-graph's entry node is an automatically placed ghost, the
returned node is that ghost. -/
theorem materialize_ghost_override_cex :
    invoke (fun c => c) jumpSpawner (some ghostEntryGraph) =
      InvokeResult.ok (some ghostEntryNode) ghostEntryGraph ∧
    ghostEntryNode.ghost = true := by
  decide

/-- C4 amended: whenever the existing-node lookup finds an automatically
placed ghost (and no function sub-graph shadows the name), `Invoke` removes
the ghost — it is no longer in the graph — and spawns a fresh, distinct,
non-ghost node; moreover every non-null node returned on the non-shortcut
paths is non-ghost.  (The named-function shortcut itself returns the entry
node without a ghost check, which is what the counterexample exhibits.) -/
theorem materialize_ghost_override_amended (auth : Nat → Nat) (sp : Spawner)
    (σ : Graph) :
    (∀ g : Node,
      σ.isTemplateOuter = false →
      findFuncGraphByName σ.functionGraphs (resolvedEventName sp) = none →
      findPreExistingEvent auth sp σ = some g → g.ghost = true →
      (σ.nodes.map Node.nid).Nodup →
      (∀ x ∈ σ.nodes, x.nid < σ.nextId) →
      invoke auth sp (some σ) =
        InvokeResult.ok (some (spawnedNode sp (RemoveGhostNodes σ g.nid)))
          (spawnEventNode sp (RemoveGhostNodes σ g.nid)).2 ∧
      (spawnedNode sp (RemoveGhostNodes σ g.nid)).ghost = false ∧
      g.nid ∉ (spawnEventNode sp (RemoveGhostNodes σ g.nid)).2.present) ∧
    (∀ (nd : Node) (σ' : Graph),
      findFuncGraphByName σ.functionGraphs (resolvedEventName sp) = none →
      invoke auth sp (some σ) = InvokeResult.ok (some nd) σ' →
      nd.ghost = false) := by
  constructor
  · intro g htm hfg hpre hg hnodup hids
    have hmemnodes : g ∈ σ.nodes := by
      rw [findPreExistingEvent_eq_find] at hpre
      exact (List.mem_filter.mp (List.mem_of_find?_eq_some hpre)).1
    have hlkg : lookupNode σ g.nid = some g :=
      lookupNode_of_mem_nodup σ g hnodup hmemnodes
    have hinv := ghostInv_removeGhostNodes σ g.nid
    refine ⟨?_, spawnedNode_ghost sp _, ?_⟩
    · rw [invoke_some]
      simp only [invokeBody, hfg, invokeLookupPath, htm, Bool.false_eq_true,
        if_false, hpre, hg, if_true, invokeSpawn]
      rw [spawnEventNode_fst]
    · have hnot : g.nid ∉ (RemoveGhostNodes σ g.nid).present :=
        removeGhostNodes_removes_start σ g.nid g hlkg hg
      have hne : g.nid ≠ (spawnedNode sp (RemoveGhostNodes σ g.nid)).nid := by
        rw [spawnedNode_nid, hinv.2.2.1]
        exact Nat.ne_of_lt (hids g hmemnodes)
      intro hmem
      rw [spawnEventNode_present] at hmem
      rcases List.mem_append.mp hmem with h | h
      · exact hnot h
      · exact hne (List.mem_singleton.mp h)
  · intro nd σ' hfg h
    rw [invoke_some] at h
    simp only [invokeBody, hfg, invokeLookupPath, invokeSpawn] at h
    split at h
    · split at h
      · injection h with h1 h2
        injection h1 with h1
        rw [← h1]
        exact spawnedNode_ghost sp _
      · next hg =>
          injection h with h1 h2
          injection h1 with h1
          rw [← h1]
          simpa using hg
    · injection h with h1 h2
      injection h1 with h1
      rw [← h1]
      exact spawnedNode_ghost sp _

theorem materialize_ghost_override_amended_witness :
    (invoke (fun c => c) jumpSpawner (some ghostJumpGraph) =
      InvokeResult.ok
        (some (spawnedNode jumpSpawner (RemoveGhostNodes ghostJumpGraph 3)))
        (spawnEventNode jumpSpawner (RemoveGhostNodes ghostJumpGraph 3)).2 ∧
    (spawnedNode jumpSpawner (RemoveGhostNodes ghostJumpGraph 3)).ghost = false ∧
    3 ∉ (spawnEventNode jumpSpawner (RemoveGhostNodes ghostJumpGraph 3)).2.present) ∧
    jumpNode.ghost = false := by
  constructor
  · exact (materialize_ghost_override_amended (fun c => c) jumpSpawner
      ghostJumpGraph).1 ghostJumpNode rfl (by decide) (by decide) (by decide)
      (by decide) (by decide)
  · exact (materialize_ghost_override_amended (fun c => c) jumpSpawner
      emptyGraph).2 jumpNode jumpGraph1 (by decide) (by decide)

/-! ### Claim C1 -/

/-- C1 counterexample: on a template-outer graph the pre-existing lookup is
skipped (cpp line 164), so a second `Invoke` with the same identity spawns a
second, distinct node instead of returning the first one. -/
theorem materialize_idempotent_cex :
    invoke (fun c => c) jumpSpawner (some tmplGraph) =
      InvokeResult.ok (some (spawnedNode jumpSpawner tmplGraph))
        (spawnEventNode jumpSpawner tmplGraph).2 ∧
    invoke (fun c => c) jumpSpawner
        (some (spawnEventNode jumpSpawner tmplGraph).2) =
      InvokeResult.ok
        (some (spawnedNode jumpSpawner (spawnEventNode jumpSpawner tmplGraph).2))
        (spawnEventNode jumpSpawner (spawnEventNode jumpSpawner tmplGraph).2).2 ∧
    spawnedNode jumpSpawner (spawnEventNode jumpSpawner tmplGraph).2 ≠
      spawnedNode jumpSpawner tmplGraph := by
  decide

/-- C1 amended: `Invoke` is idempotent on non-template graphs for spawners
built by the `Create` factories, on graph states whose node ids are
well-formed and that contain at most one node matching the identity (the
at-most-one-match invariant the spec requires callers to preserve): if the
first call returns a node, a second call with the same identity returns the
same node and leaves the graph exactly as the first call left it — in
particular it creates no new node. -/
theorem materialize_idempotent_amended (auth : Nat → Nat) (sp : Spawner)
    (σ σ₁ : Graph) (nd : Node)
    (hsp : sp.WF) (htm : σ.isTemplateOuter = false)
    (hlt : ∀ x ∈ σ.nodes, x.nid < σ.nextId)
    (hnodup : (σ.nodes.map Node.nid).Nodup)
    (huniq : (matchingNodes auth sp σ).length ≤ 1)
    (h : invoke auth sp (some σ) = InvokeResult.ok (some nd) σ₁) :
    invoke auth sp (some σ₁) = InvokeResult.ok (some nd) σ₁ := by
  rw [invoke_some] at h
  unfold invokeBody at h
  cases hfg : findFuncGraphByName σ.functionGraphs (resolvedEventName sp) with
  | some fg =>
    simp only [hfg] at h
    cases hent : functionEntries fg with
    | nil =>
      rw [hent] at h
      injection h with h1 h2
      cases h1
    | cons e rest =>
      rw [hent] at h
      injection h with h1 h2
      rw [invoke_some]
      unfold invokeBody
      rw [← h2]
      simp only [hfg, hent, h1]
  | none =>
    simp only [hfg, invokeLookupPath, htm, Bool.false_eq_true, if_false] at h
    cases hpre : findPreExistingEvent auth sp σ with
    | some g =>
      simp only [hpre] at h
      by_cases hg : g.ghost = true
      · -- ghost resurrection: remove then spawn
        rw [if_pos hg] at h
        simp only [invokeSpawn] at h
        injection h with h1 h2
        injection h1 with h1
        have hmemnodes : g ∈ σ.nodes := by
          rw [findPreExistingEvent_eq_find] at hpre
          exact (List.mem_filter.mp (List.mem_of_find?_eq_some hpre)).1
        have hlkg : lookupNode σ g.nid = some g :=
          lookupNode_of_mem_nodup σ g hnodup hmemnodes
        have hinv := ghostInv_removeGhostNodes σ g.nid
        have hgmem : g ∈ matchingNodes auth sp σ := by
          rw [findPreExistingEvent_eq_find] at hpre
          exact List.mem_filter.mpr
            ⟨List.mem_of_find?_eq_some hpre, List.find?_some hpre⟩
        have hnot : g.nid ∉ (RemoveGhostNodes σ g.nid).present :=
          removeGhostNodes_removes_start σ g.nid g hlkg hg
        have hnomatch : ∀ x ∈ presentNodes (RemoveGhostNodes σ g.nid),
            eventNodeMatches auth sp x = false := by
          intro x hx
          by_contra hmx
          have hmx : eventNodeMatches auth sp x = true := by
            simpa using hmx
          have hxσ : x ∈ presentNodes σ := presentNodes_subset_of_ghostInv hinv hx
          have hxmatch : x ∈ matchingNodes auth sp σ :=
            List.mem_filter.mpr ⟨hxσ, hmx⟩
          have hxg : x = g :=
            eq_of_mem_of_length_le_one (matchingNodes auth sp σ) huniq hxmatch hgmem
          have hxp : x.nid ∈ (RemoveGhostNodes σ g.nid).present := by
            simpa using (List.mem_filter.mp hx).2
          rw [hxg] at hxp
          exact hnot hxp
        rw [← h2, ← h1]
        exact invoke_after_spawn auth sp σ (RemoveGhostNodes σ g.nid)
          hsp hinv htm hlt hfg hnomatch
      · -- pre-existing live node returned; graph unchanged
        rw [if_neg hg] at h
        injection h with h1 h2
        injection h1 with h1
        rw [invoke_some]
        unfold invokeBody
        rw [← h2]
        simp only [hfg, invokeLookupPath, htm, Bool.false_eq_true, if_false,
          hpre]
        rw [if_neg hg, h1]
    | none =>
      simp only [hpre, invokeSpawn] at h
      injection h with h1 h2
      injection h1 with h1
      have hnomatch : ∀ x ∈ presentNodes σ,
          eventNodeMatches auth sp x = false := by
        rw [findPreExistingEvent_eq_find] at hpre
        intro x hx
        have := List.find?_eq_none.mp hpre x hx
        simpa using this
      rw [← h2, ← h1]
      exact invoke_after_spawn auth sp σ σ hsp (ghostInv_refl σ) htm hlt hfg
        hnomatch

theorem materialize_idempotent_amended_witness :
    invoke (fun c => c) jumpSpawner (some jumpGraph1) =
      InvokeResult.ok (some jumpNode) jumpGraph1 :=
  materialize_idempotent_amended (fun c => c) jumpSpawner emptyGraph
    jumpGraph1 jumpNode rfl rfl (by decide) (by decide) (by decide)
    (by decide)

end BlueprintEvent
